import Mathlib

/-!
Verification of the calico v1 etcd data-model layer (calico/datamodel_v1.py):
path-schema constants, key builders, key matchers and the EndpointId value
type.  Keys and identifier components are modelled as `List Char`.  The
Python regexes are anchored at the start only (`re.match`), and every capture
group is `[^/]+`; since `[^/]` can never match the `/` that must follow a
group, greedy matching with backtracking is equivalent to the deterministic
segment parsers defined below.
-/

/- ## Path schema constants (datamodel_v1.py lines 33-58) -/

def ROOT_DIR : List Char := "/calico".data

def FELIX_VERSION : List Char := "/v1".data

def OPENSTACK_VERSION : List Char := "/v1".data

def OPENSTACK_DIR : List Char := ROOT_DIR ++ "/openstack".data

def OPENSTACK_VERSION_DIR : List Char := OPENSTACK_DIR ++ OPENSTACK_VERSION

def FELIX_STATUS_DIR : List Char := ROOT_DIR ++ "/felix".data ++ FELIX_VERSION ++ "/host".data

def VERSION_DIR : List Char := ROOT_DIR ++ FELIX_VERSION

def READY_KEY : List Char := VERSION_DIR ++ "/Ready".data

def CONFIG_DIR : List Char := VERSION_DIR ++ "/config".data

def HOST_DIR : List Char := VERSION_DIR ++ "/host".data

def POLICY_DIR : List Char := VERSION_DIR ++ "/policy".data

def PROFILE_DIR : List Char := POLICY_DIR ++ "/profile".data

/- ## Regex building blocks -/

/-- Match a literal piece of a regex at the head of the input: returns the
remaining input if the literal is a prefix, `none` otherwise. -/
def dropLit : List Char → List Char → Option (List Char)
  | [], cs => some cs
  | _ :: _, [] => none
  | l :: ls, c :: cs => if c = l then dropLit ls cs else none

/-- Greedy `[^/]*`: split the input into its maximal slash-free head and the
rest (which is empty or starts with `'/'`). -/
def takeSeg : List Char → List Char × List Char
  | [] => ([], [])
  | c :: cs =>
    if c = '/' then ([], c :: cs)
    else ((c :: (takeSeg cs).1), (takeSeg cs).2)

/-- A `[^/]+` capture group: the maximal slash-free head, which must be
non-empty. -/
def matchSeg (cs : List Char) : Option (List Char × List Char) :=
  if (takeSeg cs).1 = [] then none else some (takeSeg cs)

/-- Python `str.rstrip('/')`: remove every trailing slash. -/
def rstripSlashes (l : List Char) : List Char :=
  (l.reverse.dropWhile (fun c => c == '/')).reverse

/-- Python `str.rsplit("/", 1)` on a string known to contain a `'/'`:
everything before the last slash, and everything after it. -/
def rsplit1 (l : List Char) : List Char × List Char :=
  (((l.reverse.dropWhile (fun c => c != '/')).drop 1).reverse,
   (l.reverse.takeWhile (fun c => c != '/')).reverse)

/-- Python `"/".join`. -/
def joinSlash : List (List Char) → List Char
  | [] => []
  | [s] => s
  | s :: rest => s ++ '/' :: joinSlash rest

/- ## Key builders (datamodel_v1.py lines 89-127) -/

def dir_for_host (hostname : List Char) : List Char :=
  HOST_DIR ++ "/".data ++ hostname

def dir_for_per_host_config (hostname : List Char) : List Char :=
  dir_for_host hostname ++ "/config".data

def dir_for_felix_status (hostname : List Char) : List Char :=
  FELIX_STATUS_DIR ++ "/".data ++ hostname

def key_for_last_status (hostname : List Char) : List Char :=
  dir_for_felix_status hostname ++ "/last_reported_status".data

def key_for_status (hostname : List Char) : List Char :=
  dir_for_felix_status hostname ++ "/status".data

def key_for_endpoint (host orchestrator workload_id endpoint_id : List Char) : List Char :=
  HOST_DIR ++ "/".data ++ host ++ "/workload/".data ++ orchestrator ++ "/".data ++
    workload_id ++ "/endpoint/".data ++ endpoint_id

def key_for_profile (profile_id : List Char) : List Char :=
  PROFILE_DIR ++ "/".data ++ profile_id

def key_for_profile_rules (profile_id : List Char) : List Char :=
  PROFILE_DIR ++ "/".data ++ profile_id ++ "/rules".data

def key_for_profile_tags (profile_id : List Char) : List Char :=
  PROFILE_DIR ++ "/".data ++ profile_id ++ "/tags".data

def key_for_config (config_name : List Char) : List Char :=
  CONFIG_DIR ++ "/".data ++ config_name

/- ## Key matchers (datamodel_v1.py lines 62-82 and 130-169) -/

/-- `RULES_KEY_RE = re.compile(r'^' + PROFILE_DIR + r'/(?P<profile_id>[^/]+)/rules')`,
applied with `re.match`: returns the `profile_id` group on a match. -/
def RULES_KEY_RE_match (key : List Char) : Option (List Char) :=
  (dropLit (PROFILE_DIR ++ "/".data) key).bind (fun r =>
    (matchSeg r).bind (fun pr =>
      (dropLit "/rules".data pr.2).bind (fun _ => some pr.1)))

/-- `TAGS_KEY_RE = re.compile(r'^' + PROFILE_DIR + r'/(?P<profile_id>[^/]+)/tags')`,
applied with `re.match`. -/
def TAGS_KEY_RE_match (key : List Char) : Option (List Char) :=
  (dropLit (PROFILE_DIR ++ "/".data) key).bind (fun r =>
    (matchSeg r).bind (fun pr =>
      (dropLit "/tags".data pr.2).bind (fun _ => some pr.1)))

/-- The alternation `(?:HOST_DIR|FELIX_STATUS_DIR)` at the start of
`ENDPOINT_KEY_RE`.  The two literals differ at index 8 (`'v'` vs `'f'`), so at
most one branch can match any input and Python's ordered alternation with
backtracking coincides with this first-match choice. -/
def altRootDrop (key : List Char) : Option (List Char) :=
  match dropLit HOST_DIR key with
  | some r => some r
  | none => dropLit FELIX_STATUS_DIR key

/-- The part of `ENDPOINT_KEY_RE` after the root alternation:
`/(?P<hostname>[^/]+)/workload/(?P<orchestrator>[^/]+)/(?P<workload_id>[^/]+)/endpoint/(?P<endpoint_id>[^/]+)`. -/
def matchEndpointTail (r : List Char) : Option (List Char × List Char × List Char × List Char) :=
  (dropLit "/".data r).bind (fun r1 =>
    (matchSeg r1).bind (fun hp =>
      (dropLit "/workload/".data hp.2).bind (fun r2 =>
        (matchSeg r2).bind (fun op =>
          (dropLit "/".data op.2).bind (fun r3 =>
            (matchSeg r3).bind (fun wp =>
              (dropLit "/endpoint/".data wp.2).bind (fun r4 =>
                (matchSeg r4).bind (fun ep =>
                  some (hp.1, op.1, wp.1, ep.1)))))))))

/-- `ENDPOINT_KEY_RE` applied with `re.match`: the four named groups
`(hostname, orchestrator, workload_id, endpoint_id)` on a match. -/
def ENDPOINT_KEY_RE_match (key : List Char) :
    Option (List Char × List Char × List Char × List Char) :=
  (altRootDrop key).bind matchEndpointTail

/-- `HOST_IP_KEY_RE = re.compile(r'^' + HOST_DIR + r'/(?P<hostname>[^/]+)/bird_ip')`,
applied with `re.match`. -/
def HOST_IP_KEY_RE_match (key : List Char) : Option (List Char) :=
  (dropLit (HOST_DIR ++ "/".data) key).bind (fun r =>
    (matchSeg r).bind (fun pr =>
      (dropLit "/bird_ip".data pr.2).bind (fun _ => some pr.1)))

/-- `IPAM_V4_CIDR_KEY_RE = re.compile(r'^' + VERSION_DIR + r'/ipam/v4/pool/(?P<encoded_cidr>[^/]+)')`,
applied with `re.match`. -/
def IPAM_V4_CIDR_KEY_RE_match (key : List Char) : Option (List Char) :=
  (dropLit (VERSION_DIR ++ "/ipam/v4/pool/".data) key).bind (fun r =>
    (matchSeg r).bind (fun pr => some pr.1))

/-- `get_profile_id_for_profile_dir` (lines 130-139): strip trailing slashes,
require a `'/'`, split at the last `'/'` and compare the front to
`PROFILE_DIR`. -/
def get_profile_id_for_profile_dir (key : List Char) : Option (List Char) :=
  if '/' ∈ rstripSlashes key then
    if (rsplit1 (rstripSlashes key)).1 = PROFILE_DIR then
      some (rsplit1 (rstripSlashes key)).2
    else none
  else none

/-- `hostname_from_status_key` (lines 156-169): requires the `FELIX_STATUS_DIR`
prefix and the `"/status"` suffix, then drops `len(FELIX_STATUS_DIR + '/')`
characters and takes the first `'/'`-separated component
(`key.split('/', 1)[0]`). -/
def hostname_from_status_key (key : List Char) : Option (List Char) :=
  if FELIX_STATUS_DIR.isPrefixOf key && "/status".data.isSuffixOf key then
    some ((key.drop (FELIX_STATUS_DIR ++ "/".data).length).takeWhile (fun c => c != '/'))
  else none

/- ## EndpointId (datamodel_v1.py lines 172-213) -/

/-- The immutable endpoint identifier.  Python interns the utf8-encoded
fields; interning changes identity, not value, so the fields are plain
strings here. -/
structure EndpointId where
  host : List Char
  orchestrator : List Char
  workload : List Char
  endpoint : List Char
deriving DecidableEq

/-- `get_endpoint_id_from_key` (lines 142-153): build an `EndpointId` from
the groups of `ENDPOINT_KEY_RE`. -/
def get_endpoint_id_from_key (key : List Char) : Option EndpointId :=
  (ENDPOINT_KEY_RE_match key).bind (fun g =>
    some (EndpointId.mk g.1 g.2.1 g.2.2.1 g.2.2.2))

/-- `EndpointId.path_for_status` (lines 184-188):
`"/".join([FELIX_STATUS_DIR, host, "workload", orchestrator, workload, "endpoint", endpoint])`. -/
def EndpointId.path_for_status (e : EndpointId) : List Char :=
  joinSlash [FELIX_STATUS_DIR, e.host, "workload".data, e.orchestrator,
             e.workload, "endpoint".data, e.endpoint]

/-- A universe of Python values an `EndpointId` may be compared against:
either another `EndpointId` or some value of a different type (represented
abstractly by a `Nat` tag). -/
inductive PyValue where
  | ep : EndpointId → PyValue
  | other : Nat → PyValue

/-- `EndpointId.__eq__` (lines 199-207).  The `other is self` identity
shortcut returns `True` only when both operands are the same object, in which
case all four fields trivially agree, so it is absorbed by the structural
comparison; a non-`EndpointId` operand fails the `isinstance` test. -/
def EndpointId.py_eq (self : EndpointId) (other : PyValue) : Bool :=
  match other with
  | PyValue.ep o =>
    o.endpoint == self.endpoint && o.workload == self.workload &&
      o.host == self.host && o.orchestrator == self.orchestrator
  | PyValue.other _ => false

/-- `EndpointId.__hash__` (lines 212-213): `hash(self.endpoint) + hash(self.workload)`,
parameterised by the underlying string-hash function `hs`. -/
def EndpointId.py_hash (hs : List Char → Int) (self : EndpointId) : Int :=
  hs self.endpoint + hs self.workload

/- ## Definitions modelled from the spec (no counterpart under src/) -/

/-- Modelled from the spec: the source has no matcher for a bare host
directory, but the round-trip invariant (spec section 8) lists the host-dir
kind; the natural decoder strips `HOST_DIR + '/'` and requires the remainder
to be a single slash-free segment. -/
def get_hostname_from_host_dir (key : List Char) : Option (List Char) :=
  (dropLit (HOST_DIR ++ "/".data) key).bind (fun r =>
    (matchSeg r).bind (fun pr => if pr.2 = [] then some pr.1 else none))

/-- Modelled from the spec: the source has no matcher for a global config
key, but the round-trip invariant (spec section 8) lists the config kind;
the natural decoder strips `CONFIG_DIR + '/'` and requires the remainder to
be a single slash-free segment. -/
def get_config_name_from_key (key : List Char) : Option (List Char) :=
  (dropLit (CONFIG_DIR ++ "/".data) key).bind (fun r =>
    (matchSeg r).bind (fun pr => if pr.2 = [] then some pr.1 else none))

/-- Modelled from the spec: the source has no builder for the host bird-IP
key; spec section 6 gives the pattern `/calico/v1/host/<hostname>/bird_ip`. -/
def key_for_host_ip (hostname : List Char) : List Char :=
  HOST_DIR ++ "/".data ++ hostname ++ "/bird_ip".data

/-- Modelled from the spec: the source has no builder for an IPAM v4 pool
key; spec section 6 gives the pattern `/calico/v1/ipam/v4/pool/<encodedCidr>`. -/
def key_for_ipam_pool (encoded_cidr : List Char) : List Char :=
  VERSION_DIR ++ "/ipam/v4/pool/".data ++ encoded_cidr

/-- Modelled from the spec: `KeyBuilder.statusEndpointKey` (spec sections 4.4
and 8) — the endpoint key shape of `key_for_endpoint`, rooted at
`FELIX_STATUS_DIR` instead of `HOST_DIR`. -/
def key_for_status_endpoint (host orchestrator workload_id endpoint_id : List Char) : List Char :=
  FELIX_STATUS_DIR ++ "/".data ++ host ++ "/workload/".data ++ orchestrator ++ "/".data ++
    workload_id ++ "/endpoint/".data ++ endpoint_id

/- ## Lemmas about the parsing primitives -/

theorem dropLit_append (l r : List Char) : dropLit l (l ++ r) = some r := by
  induction l with
  | nil => rfl
  | cons c cs ih => simp [dropLit, ih]

theorem dropLit_self (l : List Char) : dropLit l l = some [] := by
  have h := dropLit_append l []
  rwa [List.append_nil] at h

theorem dropLit_some {l k r : List Char} (h : dropLit l k = some r) : k = l ++ r := by
  induction l generalizing k with
  | nil =>
    simp only [dropLit, Option.some.injEq] at h
    simp [h]
  | cons c cs ih =>
    cases k with
    | nil => simp [dropLit] at h
    | cons a as =>
      by_cases hac : a = c
      · subst hac
        simp only [dropLit, if_pos rfl] at h
        simp [ih h]
      · simp [dropLit, hac] at h

theorem takeSeg_eq (s r : List Char) (hs : '/' ∉ s) (hr : r = [] ∨ ∃ t, r = '/' :: t) :
    takeSeg (s ++ r) = (s, r) := by
  induction s with
  | nil =>
    rcases hr with h | ⟨t, h⟩ <;> subst h
    · rfl
    · simp [takeSeg]
  | cons c cs ih =>
    rw [List.mem_cons, not_or] at hs
    have hc : c ≠ '/' := fun h => hs.1 h.symm
    simp [takeSeg, hc, ih hs.2]

theorem matchSeg_eq (s r : List Char) (hne : s ≠ []) (hs : '/' ∉ s)
    (hr : r = [] ∨ ∃ t, r = '/' :: t) :
    matchSeg (s ++ r) = some (s, r) := by
  unfold matchSeg
  rw [takeSeg_eq s r hs hr]
  simp [hne]

theorem matchSeg_eq_nil (s : List Char) (hne : s ≠ []) (hs : '/' ∉ s) :
    matchSeg s = some (s, []) := by
  have h := matchSeg_eq s [] hne hs (Or.inl rfl)
  rwa [List.append_nil] at h

theorem takeSeg_split (cs : List Char) :
    (takeSeg cs).1 ++ (takeSeg cs).2 = cs ∧ '/' ∉ (takeSeg cs).1 ∧
      ((takeSeg cs).2 = [] ∨ ∃ t, (takeSeg cs).2 = '/' :: t) := by
  induction cs with
  | nil => exact ⟨rfl, by simp [takeSeg], Or.inl rfl⟩
  | cons c cs ih =>
    by_cases hc : c = '/'
    · subst hc
      exact ⟨rfl, by simp [takeSeg], Or.inr ⟨cs, rfl⟩⟩
    · obtain ⟨h1, h2, h3⟩ := ih
      simp only [takeSeg, if_neg hc]
      refine ⟨by simp [h1], ?_, h3⟩
      simp only [List.mem_cons, not_or]
      exact ⟨fun h => hc h.symm, h2⟩

theorem matchSeg_some {cs s r : List Char} (h : matchSeg cs = some (s, r)) :
    cs = s ++ r ∧ s ≠ [] ∧ '/' ∉ s := by
  unfold matchSeg at h
  by_cases h0 : (takeSeg cs).1 = []
  · simp [h0] at h
  · rw [if_neg h0, Option.some.injEq] at h
    obtain ⟨hsplit, hmem, _⟩ := takeSeg_split cs
    rw [h] at hsplit hmem h0
    exact ⟨hsplit.symm, h0, hmem⟩

theorem takeWhile_ne_slash (a b : List Char) (ha : '/' ∉ a) :
    (a ++ '/' :: b).takeWhile (fun c => c != '/') = a := by
  induction a with
  | nil => simp
  | cons c cs ih =>
    rw [List.mem_cons, not_or] at ha
    have hc : (c != '/') = true := by
      simp only [bne_iff_ne, ne_eq]
      exact fun h => ha.1 h.symm
    rw [List.cons_append, List.takeWhile_cons]
    simp only [hc, if_true]
    rw [ih ha.2]

theorem dropWhile_ne_slash (a b : List Char) (ha : '/' ∉ a) :
    (a ++ '/' :: b).dropWhile (fun c => c != '/') = '/' :: b := by
  induction a with
  | nil => simp
  | cons c cs ih =>
    rw [List.mem_cons, not_or] at ha
    have hc : (c != '/') = true := by
      simp only [bne_iff_ne, ne_eq]
      exact fun h => ha.1 h.symm
    rw [List.cons_append, List.dropWhile_cons]
    simp only [hc, if_true]
    exact ih ha.2

theorem dropWhile_head_false {p : Char → Bool} {l : List Char} {c : Char} {t : List Char}
    (h : l.dropWhile p = c :: t) : p c = false := by
  induction l with
  | nil => simp [List.dropWhile] at h
  | cons a as ih =>
    by_cases ha : p a
    · rw [List.dropWhile_cons_of_pos ha] at h
      exact ih h
    · rw [List.dropWhile_cons_of_neg ha] at h
      obtain ⟨h1, _⟩ := List.cons.inj h
      subst h1
      simpa using ha

theorem isPrefixOf_append_self (l r : List Char) : l.isPrefixOf (l ++ r) = true := by
  induction l with
  | nil => simp
  | cons c cs ih => simp [List.isPrefixOf, ih]

theorem isSuffixOf_append_self (l r : List Char) : l.isSuffixOf (r ++ l) = true := by
  unfold List.isSuffixOf
  rw [List.reverse_append]
  exact isPrefixOf_append_self _ _

theorem rstrip_append_no_slash (a p : List Char) (h1 : p ≠ []) (h2 : '/' ∉ p) :
    rstripSlashes (a ++ p) = a ++ p := by
  unfold rstripSlashes
  rw [List.reverse_append]
  obtain ⟨c, t, hct⟩ : ∃ c t, p.reverse = c :: t := by
    cases hp : p.reverse with
    | nil => exact absurd (by simpa using congrArg List.reverse hp) h1
    | cons c t => exact ⟨c, t, rfl⟩
  have hc : (c == '/') = false := by
    have hcp : c ∈ p := by
      rw [← List.mem_reverse, hct]
      exact List.mem_cons_self c t
    simp only [beq_eq_false_iff_ne, ne_eq]
    exact fun h => h2 (h ▸ hcp)
  rw [hct, List.cons_append, List.dropWhile_cons_of_neg (by simp [hc]),
    ← List.cons_append, ← hct, ← List.reverse_append, List.reverse_reverse]

theorem dropWhile_suffix_self (p : Char → Bool) (l : List Char) : l.dropWhile p <:+ l := by
  induction l with
  | nil => exact List.suffix_refl []
  | cons c cs ih =>
    by_cases hc : p c
    · rw [List.dropWhile_cons_of_pos hc]
      exact ih.trans (List.suffix_cons c cs)
    · rw [List.dropWhile_cons_of_neg hc]

theorem rstrip_prefix (l : List Char) : rstripSlashes l <+: l := by
  unfold rstripSlashes
  conv_rhs => rw [← List.reverse_reverse l]
  exact List.reverse_prefix.mpr (dropWhile_suffix_self _ _)

theorem rstrip_reverse_head {key : List Char} {c : Char} {t : List Char}
    (h : (rstripSlashes key).reverse = c :: t) : c ≠ '/' := by
  unfold rstripSlashes at h
  rw [List.reverse_reverse] at h
  have hf := dropWhile_head_false h
  simpa using hf

theorem rsplit1_eq (a b : List Char) (hb : '/' ∉ b) :
    rsplit1 (a ++ '/' :: b) = (a, b) := by
  unfold rsplit1
  have hrev : (a ++ '/' :: b).reverse = b.reverse ++ '/' :: a.reverse := by
    rw [List.reverse_append, List.reverse_cons, List.append_assoc]
    rfl
  have hbrev : '/' ∉ b.reverse := by simpa using hb
  rw [hrev, dropWhile_ne_slash _ _ hbrev, takeWhile_ne_slash _ _ hbrev]
  simp

theorem rsplit1_split {k : List Char} (hk : '/' ∈ k) :
    k = (rsplit1 k).1 ++ '/' :: (rsplit1 k).2 ∧ '/' ∉ (rsplit1 k).2 := by
  have hTD : k.reverse.takeWhile (fun c => c != '/') ++ k.reverse.dropWhile (fun c => c != '/')
      = k.reverse := List.takeWhile_append_dropWhile _ _
  have hDne : k.reverse.dropWhile (fun c => c != '/') ≠ [] := by
    intro h0
    have hkT : k.reverse.takeWhile (fun c => c != '/') = k.reverse := by
      rw [h0, List.append_nil] at hTD
      exact hTD
    have hm : '/' ∈ k.reverse.takeWhile (fun c => c != '/') := by
      rw [hkT]
      simpa using hk
    have h2 := List.mem_takeWhile_imp hm
    simp at h2
  obtain ⟨c, D', hD⟩ : ∃ c D', k.reverse.dropWhile (fun c => c != '/') = c :: D' := by
    cases h : k.reverse.dropWhile (fun c => c != '/') with
    | nil => exact absurd h hDne
    | cons c D' => exact ⟨c, D', rfl⟩
  have hc : c = '/' := by
    have := dropWhile_head_false hD
    simpa using this
  subst hc
  constructor
  · unfold rsplit1
    rw [hD]
    have hk2 : k.reverse = k.reverse.takeWhile (fun c => c != '/') ++ '/' :: D' := by
      rw [← hD, hTD]
    conv_lhs => rw [← List.reverse_reverse k, hk2]
    rw [List.reverse_append, List.reverse_cons, List.append_assoc]
    rfl
  · unfold rsplit1
    intro hmem
    rw [List.mem_reverse] at hmem
    have := List.mem_takeWhile_imp hmem
    simp at this

/- ## Evaluation lemmas for the matchers on well-formed keys -/

theorem dropLit_nil (cs : List Char) : dropLit [] cs = some cs := rfl

theorem dropLit_cons_self (c : Char) (ls cs : List Char) :
    dropLit (c :: ls) (c :: cs) = dropLit ls cs := by
  simp [dropLit]

theorem matchEndpointTail_eval (h o w e rest : List Char)
    (hh1 : h ≠ []) (hh2 : '/' ∉ h) (ho1 : o ≠ []) (ho2 : '/' ∉ o)
    (hw1 : w ≠ []) (hw2 : '/' ∉ w) (he1 : e ≠ []) (he2 : '/' ∉ e)
    (hrest : rest = [] ∨ ∃ t, rest = '/' :: t) :
    matchEndpointTail ("/".data ++ (h ++ ("/workload/".data ++ (o ++ ("/".data ++
        (w ++ ("/endpoint/".data ++ (e ++ rest)))))))) = some (h, o, w, e) := by
  unfold matchEndpointTail
  rw [dropLit_append]
  simp only [Option.some_bind, List.cons_append, List.nil_append]
  rw [matchSeg_eq h _ hh1 hh2 (Or.inr ⟨_, rfl⟩)]
  simp only [Option.some_bind, dropLit_cons_self, dropLit_nil, List.cons_append, List.nil_append]
  rw [matchSeg_eq o _ ho1 ho2 (Or.inr ⟨_, rfl⟩)]
  simp only [Option.some_bind, dropLit_cons_self, dropLit_nil, List.cons_append, List.nil_append]
  rw [matchSeg_eq w _ hw1 hw2 (Or.inr ⟨_, rfl⟩)]
  simp only [Option.some_bind, dropLit_cons_self, dropLit_nil, List.cons_append, List.nil_append]
  rw [matchSeg_eq e rest he1 he2 hrest]
  simp only [Option.some_bind]

theorem dropLit_HOST_of_status (r : List Char) :
    dropLit HOST_DIR (FELIX_STATUS_DIR ++ r) = none := rfl

theorem endpoint_re_eval_host (h o w e rest : List Char)
    (hh1 : h ≠ []) (hh2 : '/' ∉ h) (ho1 : o ≠ []) (ho2 : '/' ∉ o)
    (hw1 : w ≠ []) (hw2 : '/' ∉ w) (he1 : e ≠ []) (he2 : '/' ∉ e)
    (hrest : rest = [] ∨ ∃ t, rest = '/' :: t) :
    ENDPOINT_KEY_RE_match (HOST_DIR ++ ("/".data ++ (h ++ ("/workload/".data ++ (o ++ ("/".data ++
        (w ++ ("/endpoint/".data ++ (e ++ rest))))))))) = some (h, o, w, e) := by
  unfold ENDPOINT_KEY_RE_match altRootDrop
  rw [dropLit_append]
  simp only [Option.some_bind]
  exact matchEndpointTail_eval h o w e rest hh1 hh2 ho1 ho2 hw1 hw2 he1 he2 hrest

theorem endpoint_re_eval_status (h o w e rest : List Char)
    (hh1 : h ≠ []) (hh2 : '/' ∉ h) (ho1 : o ≠ []) (ho2 : '/' ∉ o)
    (hw1 : w ≠ []) (hw2 : '/' ∉ w) (he1 : e ≠ []) (he2 : '/' ∉ e)
    (hrest : rest = [] ∨ ∃ t, rest = '/' :: t) :
    ENDPOINT_KEY_RE_match (FELIX_STATUS_DIR ++ ("/".data ++ (h ++ ("/workload/".data ++ (o ++ ("/".data ++
        (w ++ ("/endpoint/".data ++ (e ++ rest))))))))) = some (h, o, w, e) := by
  unfold ENDPOINT_KEY_RE_match altRootDrop
  rw [dropLit_HOST_of_status, dropLit_append]
  simp only [Option.some_bind]
  exact matchEndpointTail_eval h o w e rest hh1 hh2 ho1 ho2 hw1 hw2 he1 he2 hrest

theorem key_for_endpoint_ext (h o w e rest : List Char) :
    key_for_endpoint h o w e ++ rest = HOST_DIR ++ ("/".data ++ (h ++ ("/workload/".data ++ (o ++ ("/".data ++
        (w ++ ("/endpoint/".data ++ (e ++ rest)))))))) := by
  simp [key_for_endpoint, List.append_assoc]

theorem key_for_endpoint_eq (h o w e : List Char) :
    key_for_endpoint h o w e = HOST_DIR ++ ("/".data ++ (h ++ ("/workload/".data ++ (o ++ ("/".data ++
        (w ++ ("/endpoint/".data ++ (e ++ [])))))))) := by
  rw [← key_for_endpoint_ext, List.append_nil]

theorem key_for_status_endpoint_eq (h o w e : List Char) :
    key_for_status_endpoint h o w e = FELIX_STATUS_DIR ++ ("/".data ++ (h ++ ("/workload/".data ++ (o ++ ("/".data ++
        (w ++ ("/endpoint/".data ++ (e ++ [])))))))) := by
  simp [key_for_status_endpoint, List.append_assoc]

/-- Characterisation of `get_profile_id_for_profile_dir`: it yields `p`
exactly when the key, its trailing slashes removed, is `PROFILE_DIR/p` with
`p` a non-empty slash-free final segment. -/
theorem profile_dir_char (key p : List Char) :
    get_profile_id_for_profile_dir key = some p ↔
      (rstripSlashes key = PROFILE_DIR ++ '/' :: p ∧ p ≠ [] ∧ '/' ∉ p) := by
  constructor
  · intro h
    unfold get_profile_id_for_profile_dir at h
    by_cases hmem : '/' ∈ rstripSlashes key
    case neg => simp [hmem] at h
    rw [if_pos hmem] at h
    by_cases heq : (rsplit1 (rstripSlashes key)).1 = PROFILE_DIR
    case neg => simp [heq] at h
    rw [if_pos heq, Option.some.injEq] at h
    obtain ⟨hsplit, hnos⟩ := rsplit1_split hmem
    refine ⟨by rw [hsplit, heq, h], ?_, h ▸ hnos⟩
    rw [← h]
    intro h0
    have hrev : (rstripSlashes key).reverse = '/' :: (rsplit1 (rstripSlashes key)).1.reverse := by
      calc (rstripSlashes key).reverse
          = ((rsplit1 (rstripSlashes key)).1 ++
              '/' :: (rsplit1 (rstripSlashes key)).2).reverse := by rw [← hsplit]
        _ = '/' :: (rsplit1 (rstripSlashes key)).1.reverse := by
            rw [h0, List.reverse_append]
            rfl
    exact rstrip_reverse_head hrev rfl
  · rintro ⟨hk, hp1, hp2⟩
    unfold get_profile_id_for_profile_dir
    rw [hk, rsplit1_eq PROFILE_DIR p hp2]
    simp

/- ## Round-trip lemmas: each decoder inverts its builder -/

theorem host_dir_roundtrip (hd : List Char) (h1 : hd ≠ []) (h2 : '/' ∉ hd) :
    get_hostname_from_host_dir (dir_for_host hd) = some hd := by
  unfold get_hostname_from_host_dir dir_for_host
  rw [List.append_assoc, ← List.append_assoc, dropLit_append]
  simp only [Option.some_bind]
  rw [matchSeg_eq_nil hd h1 h2]
  simp

theorem config_roundtrip (n : List Char) (h1 : n ≠ []) (h2 : '/' ∉ n) :
    get_config_name_from_key (key_for_config n) = some n := by
  unfold get_config_name_from_key key_for_config
  rw [dropLit_append]
  simp only [Option.some_bind]
  rw [matchSeg_eq_nil n h1 h2]
  simp

theorem profile_roundtrip (p : List Char) (h1 : p ≠ []) (h2 : '/' ∉ p) :
    get_profile_id_for_profile_dir (key_for_profile p) = some p := by
  rw [profile_dir_char]
  refine ⟨?_, h1, h2⟩
  unfold key_for_profile
  rw [rstrip_append_no_slash (PROFILE_DIR ++ "/".data) p h1 h2, List.append_assoc]
  rfl

theorem host_ip_roundtrip (hd : List Char) (h1 : hd ≠ []) (h2 : '/' ∉ hd) :
    HOST_IP_KEY_RE_match (key_for_host_ip hd) = some hd := by
  unfold HOST_IP_KEY_RE_match key_for_host_ip
  rw [show HOST_DIR ++ "/".data ++ hd ++ "/bird_ip".data
        = (HOST_DIR ++ "/".data) ++ (hd ++ ('/' :: "bird_ip".data)) from by
      simp [List.append_assoc]]
  rw [dropLit_append]
  simp only [Option.some_bind]
  rw [matchSeg_eq hd _ h1 h2 (Or.inr ⟨_, rfl⟩)]
  simp only [Option.some_bind, dropLit_cons_self, dropLit_nil, List.cons_append, List.nil_append]

theorem ipam_roundtrip (c : List Char) (h1 : c ≠ []) (h2 : '/' ∉ c) :
    IPAM_V4_CIDR_KEY_RE_match (key_for_ipam_pool c) = some c := by
  unfold IPAM_V4_CIDR_KEY_RE_match key_for_ipam_pool
  rw [dropLit_append]
  simp only [Option.some_bind]
  rw [matchSeg_eq_nil c h1 h2]
  simp only [Option.some_bind]

theorem endpoint_roundtrip (h o w e : List Char) (hh1 : h ≠ []) (hh2 : '/' ∉ h)
    (ho1 : o ≠ []) (ho2 : '/' ∉ o) (hw1 : w ≠ []) (hw2 : '/' ∉ w)
    (he1 : e ≠ []) (he2 : '/' ∉ e) :
    get_endpoint_id_from_key (key_for_endpoint h o w e) = some (EndpointId.mk h o w e) := by
  unfold get_endpoint_id_from_key
  rw [key_for_endpoint_eq,
    endpoint_re_eval_host h o w e [] hh1 hh2 ho1 ho2 hw1 hw2 he1 he2 (Or.inl rfl)]
  simp only [Option.some_bind]

theorem endpoint_roundtrip_status (h o w e : List Char) (hh1 : h ≠ []) (hh2 : '/' ∉ h)
    (ho1 : o ≠ []) (ho2 : '/' ∉ o) (hw1 : w ≠ []) (hw2 : '/' ∉ w)
    (he1 : e ≠ []) (he2 : '/' ∉ e) :
    get_endpoint_id_from_key (key_for_status_endpoint h o w e) = some (EndpointId.mk h o w e) := by
  unfold get_endpoint_id_from_key
  rw [key_for_status_endpoint_eq,
    endpoint_re_eval_status h o w e [] hh1 hh2 ho1 ho2 hw1 hw2 he1 he2 (Or.inl rfl)]
  simp only [Option.some_bind]

/- ## Exact characterisation of the rules and tags matchers -/

theorem rules_re_char (key p : List Char) :
    RULES_KEY_RE_match key = some p ↔
      (p ≠ [] ∧ '/' ∉ p ∧ ∃ s, key = key_for_profile_rules p ++ s) := by
  constructor
  · intro h
    unfold RULES_KEY_RE_match at h
    cases h1 : dropLit (PROFILE_DIR ++ "/".data) key with
    | none => rw [h1] at h; simp at h
    | some r =>
      rw [h1] at h
      simp only [Option.some_bind] at h
      cases h2 : matchSeg r with
      | none => rw [h2] at h; simp at h
      | some qr =>
        obtain ⟨q, r2⟩ := qr
        rw [h2] at h
        simp only [Option.some_bind] at h
        cases h3 : dropLit "/rules".data r2 with
        | none => rw [h3] at h; simp at h
        | some s2 =>
          rw [h3] at h
          simp only [Option.some_bind, Option.some.injEq] at h
          subst h
          obtain ⟨hr, hq1, hq2⟩ := matchSeg_some h2
          refine ⟨hq1, hq2, s2, ?_⟩
          rw [dropLit_some h1, hr, dropLit_some h3]
          simp [key_for_profile_rules, List.append_assoc]
  · rintro ⟨hp1, hp2, s, hkey⟩
    subst hkey
    unfold RULES_KEY_RE_match key_for_profile_rules
    rw [show PROFILE_DIR ++ "/".data ++ p ++ "/rules".data ++ s
          = (PROFILE_DIR ++ "/".data) ++ (p ++ ('/' :: ("rules".data ++ s))) from by
        simp [List.append_assoc]]
    rw [dropLit_append]
    simp only [Option.some_bind]
    rw [matchSeg_eq p _ hp1 hp2 (Or.inr ⟨_, rfl⟩)]
    simp only [Option.some_bind, dropLit_cons_self, dropLit_nil, List.cons_append,
      List.nil_append]

theorem tags_re_char (key p : List Char) :
    TAGS_KEY_RE_match key = some p ↔
      (p ≠ [] ∧ '/' ∉ p ∧ ∃ s, key = key_for_profile_tags p ++ s) := by
  constructor
  · intro h
    unfold TAGS_KEY_RE_match at h
    cases h1 : dropLit (PROFILE_DIR ++ "/".data) key with
    | none => rw [h1] at h; simp at h
    | some r =>
      rw [h1] at h
      simp only [Option.some_bind] at h
      cases h2 : matchSeg r with
      | none => rw [h2] at h; simp at h
      | some qr =>
        obtain ⟨q, r2⟩ := qr
        rw [h2] at h
        simp only [Option.some_bind] at h
        cases h3 : dropLit "/tags".data r2 with
        | none => rw [h3] at h; simp at h
        | some s2 =>
          rw [h3] at h
          simp only [Option.some_bind, Option.some.injEq] at h
          subst h
          obtain ⟨hr, hq1, hq2⟩ := matchSeg_some h2
          refine ⟨hq1, hq2, s2, ?_⟩
          rw [dropLit_some h1, hr, dropLit_some h3]
          simp [key_for_profile_tags, List.append_assoc]
  · rintro ⟨hp1, hp2, s, hkey⟩
    subst hkey
    unfold TAGS_KEY_RE_match key_for_profile_tags
    rw [show PROFILE_DIR ++ "/".data ++ p ++ "/tags".data ++ s
          = (PROFILE_DIR ++ "/".data) ++ (p ++ ('/' :: ("tags".data ++ s))) from by
        simp [List.append_assoc]]
    rw [dropLit_append]
    simp only [Option.some_bind]
    rw [matchSeg_eq p _ hp1 hp2 (Or.inr ⟨_, rfl⟩)]
    simp only [Option.some_bind, dropLit_cons_self, dropLit_nil, List.cons_append,
      List.nil_append]

/- ## Claim theorems -/

/-- C1: for every valid identifier tuple (components non-empty and containing
no slash), decoding the path produced by the corresponding key builder
returns exactly the original identifiers, for each identifier kind the layer
defines: host dir, endpoint, profile, profile-rules, profile-tags, config,
host-IP and IPAM pool.  (The host-dir and config decoders and the host-IP and
IPAM-pool builders are modelled from the spec, the source defining only the
other half of each pair.) -/
theorem C1_roundtrip (hd h o w e p n hip cidr : List Char)
    (hhd1 : hd ≠ []) (hhd2 : '/' ∉ hd)
    (hh1 : h ≠ []) (hh2 : '/' ∉ h) (ho1 : o ≠ []) (ho2 : '/' ∉ o)
    (hw1 : w ≠ []) (hw2 : '/' ∉ w) (he1 : e ≠ []) (he2 : '/' ∉ e)
    (hp1 : p ≠ []) (hp2 : '/' ∉ p) (hn1 : n ≠ []) (hn2 : '/' ∉ n)
    (hi1 : hip ≠ []) (hi2 : '/' ∉ hip) (hc1 : cidr ≠ []) (hc2 : '/' ∉ cidr) :
    get_hostname_from_host_dir (dir_for_host hd) = some hd ∧
    get_endpoint_id_from_key (key_for_endpoint h o w e) = some (EndpointId.mk h o w e) ∧
    get_profile_id_for_profile_dir (key_for_profile p) = some p ∧
    RULES_KEY_RE_match (key_for_profile_rules p) = some p ∧
    TAGS_KEY_RE_match (key_for_profile_tags p) = some p ∧
    get_config_name_from_key (key_for_config n) = some n ∧
    HOST_IP_KEY_RE_match (key_for_host_ip hip) = some hip ∧
    IPAM_V4_CIDR_KEY_RE_match (key_for_ipam_pool cidr) = some cidr :=
  ⟨host_dir_roundtrip hd hhd1 hhd2,
   endpoint_roundtrip h o w e hh1 hh2 ho1 ho2 hw1 hw2 he1 he2,
   profile_roundtrip p hp1 hp2,
   (rules_re_char (key_for_profile_rules p) p).mpr ⟨hp1, hp2, [], (List.append_nil _).symm⟩,
   (tags_re_char (key_for_profile_tags p) p).mpr ⟨hp1, hp2, [], (List.append_nil _).symm⟩,
   config_roundtrip n hn1 hn2,
   host_ip_roundtrip hip hi1 hi2,
   ipam_roundtrip cidr hc1 hc2⟩

/-- Witness for C1 at concrete identifiers. -/
theorem C1_roundtrip_witness :
    get_hostname_from_host_dir (dir_for_host "h1".data) = some ("h1".data) ∧
    get_endpoint_id_from_key (key_for_endpoint "h1".data "orc".data "w1".data "e1".data)
      = some (EndpointId.mk "h1".data "orc".data "w1".data "e1".data) ∧
    get_profile_id_for_profile_dir (key_for_profile "prof1".data) = some ("prof1".data) ∧
    RULES_KEY_RE_match (key_for_profile_rules "prof1".data) = some ("prof1".data) ∧
    TAGS_KEY_RE_match (key_for_profile_tags "prof1".data) = some ("prof1".data) ∧
    get_config_name_from_key (key_for_config "LogSeverity".data) = some ("LogSeverity".data) ∧
    HOST_IP_KEY_RE_match (key_for_host_ip "h1".data) = some ("h1".data) ∧
    IPAM_V4_CIDR_KEY_RE_match (key_for_ipam_pool "10.0.0.0-8".data) = some ("10.0.0.0-8".data) :=
  C1_roundtrip "h1".data "h1".data "orc".data "w1".data "e1".data "prof1".data
    "LogSeverity".data "h1".data "10.0.0.0-8".data
    (by decide) (by decide) (by decide) (by decide) (by decide) (by decide)
    (by decide) (by decide) (by decide) (by decide) (by decide) (by decide)
    (by decide) (by decide) (by decide) (by decide) (by decide) (by decide)

/-- C2: the endpoint matcher accepts both alternative roots (live config at
`HOST_DIR` and felix status at `FELIX_STATUS_DIR`) and extracts the same four
components from either, for every non-empty slash-free choice of the
components. -/
theorem C2_endpoint_both_roots (h o w e : List Char)
    (hh1 : h ≠ []) (hh2 : '/' ∉ h) (ho1 : o ≠ []) (ho2 : '/' ∉ o)
    (hw1 : w ≠ []) (hw2 : '/' ∉ w) (he1 : e ≠ []) (he2 : '/' ∉ e) :
    get_endpoint_id_from_key (key_for_endpoint h o w e) = some (EndpointId.mk h o w e) ∧
    get_endpoint_id_from_key (key_for_status_endpoint h o w e)
      = some (EndpointId.mk h o w e) :=
  ⟨endpoint_roundtrip h o w e hh1 hh2 ho1 ho2 hw1 hw2 he1 he2,
   endpoint_roundtrip_status h o w e hh1 hh2 ho1 ho2 hw1 hw2 he1 he2⟩

/-- Witness for C2 at the concrete keys from the claim. -/
theorem C2_endpoint_both_roots_witness :
    get_endpoint_id_from_key ("/calico/v1/host/h1/workload/orc/w1/endpoint/e1".data)
      = some (EndpointId.mk "h1".data "orc".data "w1".data "e1".data) ∧
    get_endpoint_id_from_key ("/calico/felix/v1/host/h1/workload/orc/w1/endpoint/e1".data)
      = some (EndpointId.mk "h1".data "orc".data "w1".data "e1".data) :=
  C2_endpoint_both_roots "h1".data "orc".data "w1".data "e1".data
    (by decide) (by decide) (by decide) (by decide)
    (by decide) (by decide) (by decide) (by decide)

/-- C10: the endpoint regex is anchored only at the start of the key, so any
key extending a well-formed endpoint key with further path segments is still
accepted and decodes to the same identifier. -/
theorem C10_endpoint_match_extension (h o w e s : List Char)
    (hh1 : h ≠ []) (hh2 : '/' ∉ h) (ho1 : o ≠ []) (ho2 : '/' ∉ o)
    (hw1 : w ≠ []) (hw2 : '/' ∉ w) (he1 : e ≠ []) (he2 : '/' ∉ e) :
    get_endpoint_id_from_key (key_for_endpoint h o w e ++ '/' :: s)
      = some (EndpointId.mk h o w e) := by
  unfold get_endpoint_id_from_key
  rw [key_for_endpoint_ext h o w e ('/' :: s),
    endpoint_re_eval_host h o w e ('/' :: s) hh1 hh2 ho1 ho2 hw1 hw2 he1 he2 (Or.inr ⟨s, rfl⟩)]
  simp only [Option.some_bind]

/-- Witness for C10 at a concrete extended key. -/
theorem C10_endpoint_match_extension_witness :
    get_endpoint_id_from_key
        (key_for_endpoint "h1".data "orc".data "w1".data "e1".data ++ '/' :: "extra/stuff".data)
      = some (EndpointId.mk "h1".data "orc".data "w1".data "e1".data) :=
  C10_endpoint_match_extension "h1".data "orc".data "w1".data "e1".data "extra/stuff".data
    (by decide) (by decide) (by decide) (by decide)
    (by decide) (by decide) (by decide) (by decide)

/-- C3: `hostname_from_status_key` returns a hostname exactly when the key
starts with the status-root prefix and ends with the literal `"/status"`
suffix, and for any key of the form `FELIX_STATUS_DIR/<h>/...` it returns the
first path component `h` after the prefix; otherwise it returns `none`. -/
theorem C3_status_hostname (key h t : List Char) (hh : '/' ∉ h) :
    (hostname_from_status_key key = none ↔
      (FELIX_STATUS_DIR.isPrefixOf key && "/status".data.isSuffixOf key) = false) ∧
    hostname_from_status_key
        (FELIX_STATUS_DIR ++ "/".data ++ h ++ "/".data ++ t ++ "/status".data) = some h ∧
    hostname_from_status_key (FELIX_STATUS_DIR ++ "/".data ++ h ++ "/status".data) = some h ∧
    hostname_from_status_key
        ("/calico/felix/v1/host/h1/workload/orc/w1/endpoint/e1/status".data)
      = some ("h1".data) := by
  refine ⟨?_, ?_, ?_, by decide⟩
  · cases hb : (FELIX_STATUS_DIR.isPrefixOf key && "/status".data.isSuffixOf key) <;>
      simp [hostname_from_status_key, hb]
  · have hk1 : FELIX_STATUS_DIR ++ "/".data ++ h ++ "/".data ++ t ++ "/status".data
        = (FELIX_STATUS_DIR ++ "/".data) ++ (h ++ '/' :: (t ++ "/status".data)) := by
      simp [List.append_assoc]
    have hk2 : FELIX_STATUS_DIR ++ "/".data ++ h ++ "/".data ++ t ++ "/status".data
        = FELIX_STATUS_DIR ++ ("/".data ++ (h ++ '/' :: (t ++ "/status".data))) := by
      simp [List.append_assoc]
    have hpre : FELIX_STATUS_DIR.isPrefixOf
        (FELIX_STATUS_DIR ++ "/".data ++ h ++ "/".data ++ t ++ "/status".data) = true := by
      rw [hk2]
      exact isPrefixOf_append_self _ _
    have hsuf : "/status".data.isSuffixOf
        (FELIX_STATUS_DIR ++ "/".data ++ h ++ "/".data ++ t ++ "/status".data) = true :=
      isSuffixOf_append_self _ _
    unfold hostname_from_status_key
    rw [hpre, hsuf]
    simp only [Bool.and_self, if_true]
    rw [hk1, List.drop_left, takeWhile_ne_slash h _ hh]
  · have hk1 : FELIX_STATUS_DIR ++ "/".data ++ h ++ "/status".data
        = (FELIX_STATUS_DIR ++ "/".data) ++ (h ++ '/' :: "status".data) := by
      simp [List.append_assoc]
    have hk2 : FELIX_STATUS_DIR ++ "/".data ++ h ++ "/status".data
        = FELIX_STATUS_DIR ++ ("/".data ++ (h ++ '/' :: "status".data)) := by
      simp [List.append_assoc]
    have hpre : FELIX_STATUS_DIR.isPrefixOf
        (FELIX_STATUS_DIR ++ "/".data ++ h ++ "/status".data) = true := by
      rw [hk2]
      exact isPrefixOf_append_self _ _
    have hsuf : "/status".data.isSuffixOf
        (FELIX_STATUS_DIR ++ "/".data ++ h ++ "/status".data) = true :=
      isSuffixOf_append_self _ _
    unfold hostname_from_status_key
    rw [hpre, hsuf]
    simp only [Bool.and_self, if_true]
    rw [hk1, List.drop_left, takeWhile_ne_slash h _ hh]

/-- Witness for C3 at concrete keys. -/
theorem C3_status_hostname_witness :
    hostname_from_status_key
        (FELIX_STATUS_DIR ++ "/".data ++ "h1".data ++ "/".data ++
          "workload/orc/w1/endpoint/e1".data ++ "/status".data) = some ("h1".data) ∧
    hostname_from_status_key
        ("/calico/felix/v1/host/h1/workload/orc/w1/endpoint/e1/status".data)
      = some ("h1".data) :=
  ⟨(C3_status_hostname [] "h1".data "workload/orc/w1/endpoint/e1".data (by decide)).2.1,
   (C3_status_hostname [] "h1".data "workload/orc/w1/endpoint/e1".data (by decide)).2.2.2⟩

/-- C4: `get_profile_id_for_profile_dir` returns the key's last segment as
the profile id exactly when the key, after stripping any trailing slashes,
is the profile root followed by that single non-empty slash-free segment; in
particular `PROFILE_DIR/foo` and `PROFILE_DIR/foo/` both yield `foo` and
`PROFILE_DIR/foo/rules` yields `none`. -/
theorem C4_profile_dir_matcher (key p : List Char) :
    (get_profile_id_for_profile_dir key = some p ↔
      (rstripSlashes key = PROFILE_DIR ++ '/' :: p ∧ p ≠ [] ∧ '/' ∉ p)) ∧
    get_profile_id_for_profile_dir ("/calico/v1/policy/profile/foo".data) = some ("foo".data) ∧
    get_profile_id_for_profile_dir ("/calico/v1/policy/profile/foo/".data) = some ("foo".data) ∧
    get_profile_id_for_profile_dir ("/calico/v1/policy/profile/foo/rules".data) = none :=
  ⟨profile_dir_char key p, by decide, by decide, by decide⟩

/-- C5 (amended): the profile-rules matcher extracts profile id `p` exactly
when the key begins with `PROFILE_DIR/p/rules` — an arbitrary suffix may
follow, because the regex is anchored only at the start — with `p` non-empty
and slash-free; likewise the tags matcher with `/tags`. -/
theorem C5_rules_tags_matchers (key p : List Char) :
    (RULES_KEY_RE_match key = some p ↔
      (p ≠ [] ∧ '/' ∉ p ∧ ∃ s, key = key_for_profile_rules p ++ s)) ∧
    (TAGS_KEY_RE_match key = some p ↔
      (p ≠ [] ∧ '/' ∉ p ∧ ∃ s, key = key_for_profile_tags p ++ s)) :=
  ⟨rules_re_char key p, tags_re_char key p⟩

/-- C5 counterexample: keys with trailing garbage after `/rules` (resp.
`/tags`) are not of the exact claimed shape, yet the matchers still accept
them and extract `"foo"`, refuting the claim that every other string yields
absence. -/
theorem C5_counterexample :
    RULES_KEY_RE_match ("/calico/v1/policy/profile/foo/rulesX".data) = some ("foo".data) ∧
    "/calico/v1/policy/profile/foo/rulesX".data ≠ key_for_profile_rules ("foo".data) ∧
    TAGS_KEY_RE_match ("/calico/v1/policy/profile/foo/tags/extra".data) = some ("foo".data) ∧
    "/calico/v1/policy/profile/foo/tags/extra".data ≠ key_for_profile_tags ("foo".data) :=
  ⟨by decide, by decide, by decide, by decide⟩

/-- C6: `EndpointId.path_for_status` is byte-identical to the canonical
endpoint key for the same four fields rooted at the felix-status subtree,
i.e. the shape of `key_for_endpoint` with the host root replaced by
`FELIX_STATUS_DIR`. -/
theorem C6_path_for_status_eq (h o w e : List Char) :
    (EndpointId.mk h o w e).path_for_status =
      "/calico/felix/v1/host/".data ++ h ++ "/workload/".data ++ o ++ "/".data ++ w ++
        "/endpoint/".data ++ e ∧
    (EndpointId.mk h o w e).path_for_status = key_for_status_endpoint h o w e := by
  constructor <;>
    simp [EndpointId.path_for_status, joinSlash, key_for_status_endpoint, FELIX_STATUS_DIR,
      ROOT_DIR, FELIX_VERSION, List.append_assoc]

/-- C7: `EndpointId` equality is structural over all four fields, and
comparing an `EndpointId` with a value that is not an `EndpointId` yields
`False`. -/
theorem C7_eq_structural (a b : EndpointId) (n : Nat) :
    (a.py_eq (PyValue.ep b) = true ↔
      (a.host = b.host ∧ a.orchestrator = b.orchestrator ∧ a.workload = b.workload ∧
        a.endpoint = b.endpoint)) ∧
    a.py_eq (PyValue.other n) = false := by
  constructor
  · unfold EndpointId.py_eq
    simp only [Bool.and_eq_true, beq_iff_eq]
    constructor
    · rintro ⟨⟨⟨h1, h2⟩, h3⟩, h4⟩
      exact ⟨h3.symm, h4.symm, h2.symm, h1.symm⟩
    · rintro ⟨h1, h2, h3, h4⟩
      exact ⟨⟨⟨h4.symm, h3.symm⟩, h1.symm⟩, h2.symm⟩
  · rfl

/-- C8: the hash of an `EndpointId` is computed from only the endpoint and
workload fields — any two values agreeing on those two fields hash equally
regardless of host and orchestrator — and consequently `a == b` implies
`hash(a) == hash(b)`; this holds for every underlying string hash `hs`. -/
theorem C8_hash_from_endpoint_workload (hs : List Char → Int) (a b : EndpointId) :
    (a.endpoint = b.endpoint → a.workload = b.workload →
      EndpointId.py_hash hs a = EndpointId.py_hash hs b) ∧
    (a.py_eq (PyValue.ep b) = true → EndpointId.py_hash hs a = EndpointId.py_hash hs b) := by
  constructor
  · intro h1 h2
    unfold EndpointId.py_hash
    rw [h1, h2]
  · intro h
    unfold EndpointId.py_eq at h
    simp only [Bool.and_eq_true, beq_iff_eq] at h
    unfold EndpointId.py_hash
    rw [← h.1.1.1, ← h.1.1.2]

/-- Witness for C8: two ids sharing workload and endpoint but with different
hosts and orchestrators hash equally. -/
theorem C8_hash_witness :
    EndpointId.py_hash (fun l => (l.length : Int))
        (EndpointId.mk "hostA".data "orcA".data "w1".data "e1".data) =
      EndpointId.py_hash (fun l => (l.length : Int))
        (EndpointId.mk "hostB".data "orcB".data "w1".data "e1".data) :=
  (C8_hash_from_endpoint_workload (fun l => (l.length : Int))
      (EndpointId.mk "hostA".data "orcA".data "w1".data "e1".data)
      (EndpointId.mk "hostB".data "orcB".data "w1".data "e1".data)).1 rfl rfl

/-- C9: every matcher returns an explicit absence value on the unrelated
inputs: the empty string, `"/foo/bar"`, and any key beginning
`"/calico/v2/"`.  (Totality over arbitrary strings is inherent in the
embedding: each matcher is a total function into `Option`.) -/
theorem C9_unmatched_absence (s : List Char) :
    (RULES_KEY_RE_match "".data = none ∧ TAGS_KEY_RE_match "".data = none ∧
     get_profile_id_for_profile_dir "".data = none ∧
     get_endpoint_id_from_key "".data = none ∧
     HOST_IP_KEY_RE_match "".data = none ∧ IPAM_V4_CIDR_KEY_RE_match "".data = none ∧
     hostname_from_status_key "".data = none) ∧
    (RULES_KEY_RE_match "/foo/bar".data = none ∧ TAGS_KEY_RE_match "/foo/bar".data = none ∧
     get_profile_id_for_profile_dir "/foo/bar".data = none ∧
     get_endpoint_id_from_key "/foo/bar".data = none ∧
     HOST_IP_KEY_RE_match "/foo/bar".data = none ∧
     IPAM_V4_CIDR_KEY_RE_match "/foo/bar".data = none ∧
     hostname_from_status_key "/foo/bar".data = none) ∧
    (RULES_KEY_RE_match ("/calico/v2/".data ++ s) = none ∧
     TAGS_KEY_RE_match ("/calico/v2/".data ++ s) = none ∧
     get_profile_id_for_profile_dir ("/calico/v2/".data ++ s) = none ∧
     get_endpoint_id_from_key ("/calico/v2/".data ++ s) = none ∧
     HOST_IP_KEY_RE_match ("/calico/v2/".data ++ s) = none ∧
     IPAM_V4_CIDR_KEY_RE_match ("/calico/v2/".data ++ s) = none ∧
     hostname_from_status_key ("/calico/v2/".data ++ s) = none) := by
  refine ⟨by decide, by decide, rfl, rfl, ?_, rfl, rfl, rfl, rfl⟩
  cases hres : get_profile_id_for_profile_dir ("/calico/v2/".data ++ s) with
  | none => rfl
  | some p =>
    exfalso
    obtain ⟨hk, hp1, hp2⟩ := (profile_dir_char _ p).mp hres
    have hpre : rstripSlashes ("/calico/v2/".data ++ s) <+: "/calico/v2/".data ++ s :=
      rstrip_prefix _
    rw [hk] at hpre
    obtain ⟨t, ht⟩ := hpre
    have h9 := congrArg (fun l => l[9]?) ht
    simp only at h9
    have hlen1 : 9 < (PROFILE_DIR ++ '/' :: p).length := by
      rw [List.length_append]
      have h25 : PROFILE_DIR.length = 25 := by decide
      omega
    rw [List.getElem?_append_left hlen1] at h9
    have hlen2 : 9 < PROFILE_DIR.length := by decide
    rw [List.getElem?_append_left hlen2] at h9
    have hlen3 : (9 : Nat) < ("/calico/v2/".data).length := by decide
    rw [List.getElem?_append_left hlen3] at h9
    exact absurd h9 (by decide)
